import Mathlib

/-!
Verification of the image/mask preparation pipeline and the IoU metric of
the pytorch-unet-segmentation repository (src/data.py, src/metrics.py).

Images and label maps are embedded as row-major lists of rows of natural
numbers (one channel; the geometric and label-set properties under study
are channel-independent).  The global random sources used by the Python
code (the `random` module and the torch generator) are embedded as one
explicit stream `σ : Nat → ℚ` of uniform draws in `[0, 1)`; the pipeline
reads a fixed finite prefix of the stream.  Fallible operations (the
torchvision crop-parameter sampler raises when the requested crop does not
fit) return `Except String`.
-/

namespace PUSeg

/-- An image or label map: a list of rows of pixel values. -/
abbrev Img := List (List Nat)

/-- An image after conversion to a floating-point tensor. -/
abbrev QImg := List (List ℚ)

/-- Clamp an integer intensity into the 8-bit range, as PIL does. -/
def clamp255 (x : Int) : Nat := (min 255 (max 0 x)).toNat

/-- Round a rational to the nearest integer, halves up (PIL blending). -/
def qround (q : ℚ) : Int := ⌊q + 1/2⌋

/-- The augmentation configuration of src/data.py lines 17-25, with the
source's default values (0.50, 0.10, 0.10, 0.10, 0.05). -/
structure DataAugmentation where
  central_crop_size : Nat := 512
  h_flipping_chance : ℚ := 1/2
  brightness_rate : ℚ := 1/10
  contrast_rate : ℚ := 1/10
  saturation_rate : ℚ := 1/10
  hue_rate : ℚ := 1/20

/-- PIL brightness adjustment: blend with black, every pixel scaled by the
factor and clamped. -/
def adjust_brightness (b : ℚ) (img : Img) : Img :=
  img.map (fun row => row.map (fun (x : Nat) => clamp255 (qround (b * (x : ℚ)))))

/-- Sum of all pixel values of an image. -/
def imgSum (img : Img) : Nat := (img.map List.sum).sum

/-- Number of pixels of an image. -/
def imgCount (img : Img) : Nat := (img.map List.length).sum

/-- Mean pixel value (0 for an empty image). -/
def imgMean (img : Img) : ℚ :=
  if imgCount img = 0 then 0 else (imgSum img : ℚ) / (imgCount img : ℚ)

/-- PIL contrast adjustment: blend with the rounded mean gray image. -/
def adjust_contrast (c : ℚ) (img : Img) : Img :=
  img.map (fun row => row.map (fun (x : Nat) =>
    clamp255 (qround ((1 - c) * (qround (imgMean img) : ℚ) + c * (x : ℚ)))))

/-- A uniform draw `q ∈ [0,1)` mapped into the interval `[lo, hi]`. -/
def uniformIn (lo hi q : ℚ) : ℚ := lo + (hi - lo) * q

/-- The torchvision ColorJitter call of src/data.py lines 29-32 on a
single-channel image: a brightness factor drawn uniformly from
`[max 0 (1-rate), 1+rate]` (stream position 0) and a contrast factor
likewise (position 1) are applied; the saturation and hue draws
(positions 2 and 3) are identities on a single-channel image, so the
stream values are drawn but have no effect. -/
def colorJitter (cfg : DataAugmentation) (σ : Nat → ℚ) (img : Img) : Img :=
  let fb := uniformIn (max 0 (1 - cfg.brightness_rate)) (1 + cfg.brightness_rate) (σ 0)
  let fc := uniformIn (max 0 (1 - cfg.contrast_rate)) (1 + cfg.contrast_rate) (σ 1)
  adjust_contrast fc (adjust_brightness fb img)

/-- Map a uniform draw `q ∈ [0,1)` to an index in `{0, ..., n-1}`, the
embedding of `torch.randint(0, n)`. -/
def toIdx (q : ℚ) (n : Nat) : Nat := min (n - 1) (Int.toNat ⌊q * n⌋)

/-- torchvision `F.crop(img, top, left, height, width)`: the output pixel
at `(i, j)` is the input pixel at `(top+i, left+j)`, zero beyond the input
boundary (PIL pads crops past the edge with 0). -/
def crop (img : Img) (top left height width : Nat) : Img :=
  (List.range height).map (fun i =>
    (List.range width).map (fun j => (img.getD (top + i) []).getD (left + j) 0))

/-- torchvision `transforms.RandomCrop.get_params(img, (th, tw))`: reads
the image size, raises when the requested crop does not fit, returns
`(0, 0, h, w)` without drawing when the sizes match exactly, and otherwise
draws one top offset and one left offset. -/
def get_params (image : Img) (th tw : Nat) (qi qj : ℚ) :
    Except String (Nat × Nat × Nat × Nat) :=
  let h := image.length
  let w := (image.headD []).length
  if th ≤ h ∧ tw ≤ w then
    if h = th ∧ w = tw then Except.ok (0, 0, h, w)
    else Except.ok (toIdx qi (h - th + 1), toIdx qj (w - tw + 1), th, tw)
  else Except.error "Required crop size is larger than input image size"

/-- `PairRandomCrop.__call__` of src/data.py lines 125-135: one parameter
tuple is sampled from the image, and the identical tuple is applied to
both the image and the mask. -/
def pairRandomCrop (s : Nat) (qi qj : ℚ) (image mask : Img) :
    Except String (Img × Img) :=
  match get_params image s s qi qj with
  | Except.error e => Except.error e
  | Except.ok (start_y, start_x, new_height, new_width) =>
      Except.ok (crop image start_y start_x new_height new_width,
                 crop mask start_y start_x new_height new_width)

/-- torchvision `TF.hflip`: reverse every row. -/
def hflip (img : Img) : Img := img.map List.reverse

/-- The horizontal-flip stage of `augment` in isolation: the decision made
from the threshold and one random value, applied to the image/mask pair. -/
def flipStep (chance r : ℚ) (p : Img × Img) : Img × Img :=
  if chance < r then (hflip p.1, hflip p.2) else p

/-- `DataAugmentation.augment` of src/data.py lines 27-42: color jitter on
the image only (stream positions 0-3), the synchronized pair random crop
(positions 4 and 5), then, if one further uniform draw (position 6)
exceeds `h_flipping_chance`, a horizontal flip of both image and mask. -/
def augment (cfg : DataAugmentation) (σ : Nat → ℚ) (image mask : Img) :
    Except String (Img × Img) :=
  let image := colorJitter cfg σ image
  match pairRandomCrop cfg.central_crop_size (σ 4) (σ 5) image mask with
  | Except.error e => Except.error e
  | Except.ok (image, mask) =>
      if cfg.h_flipping_chance < σ 6 then Except.ok (hflip image, hflip mask)
      else Except.ok (image, mask)

/-- The jitter-and-crop stage of `augment`, before the flip decision. -/
def preFlip (cfg : DataAugmentation) (σ : Nat → ℚ) (image mask : Img) :
    Except String (Img × Img) :=
  pairRandomCrop cfg.central_crop_size (σ 4) (σ 5) (colorJitter cfg σ image) mask

/-- Nearest source index for output index `i` when resizing an axis from
`inSize` to `outSize` samples: skimage maps output coordinate `i` to input
coordinate `(i + 1/2) * inSize/outSize - 1/2` and order-0 interpolation
rounds it to the nearest integer, clipped into the input range; the
rounded value is `⌊(2i+1) * inSize / (2 * outSize)⌋`. -/
def nnIndex (inSize outSize i : Nat) : Nat :=
  min (inSize - 1) ((2 * i + 1) * inSize / (2 * outSize))

/-- `_resize_mask` of src/data.py lines 112-117: nearest-neighbor (order 0)
resize to `newSize × newSize` with anti-aliasing disabled and the value
range preserved, so every output pixel is a copy of some input pixel. -/
def resize_mask (mask : Img) (newSize : Nat) : Img :=
  let h := mask.length
  let w := (mask.headD []).length
  (List.range newSize).map (fun i =>
    (List.range newSize).map (fun j =>
      (mask.getD (nnIndex h newSize i) []).getD (nnIndex w newSize j) 0))

/-- `_resize_image` of src/data.py lines 105-109: the same order-0 resize
(the library's anti-aliasing pre-filter for downscaling acts on the pixel
values only and is not modelled; no claim depends on the image's resized
pixel values). -/
def resize_image (img : Img) (newSize : Nat) : Img := resize_mask img newSize

/-- `transforms.ToTensor`: scale 8-bit values into `[0,1]` rationals. -/
def to_tensor (img : Img) : QImg :=
  img.map (fun row => row.map (fun (x : Nat) => (x : ℚ) / 255))

/-- `transforms.Normalize(mean=(0,), std=(1,))` of src/data.py line 88. -/
def normalizeImg (mean std : ℚ) (img : QImg) : QImg :=
  img.map (fun row => row.map (fun x => (x - mean) / std))

/-- `DeepFashion2Dataset._transform` of src/data.py lines 79-89: resize
image and mask, augment only when a configuration is present, then convert
and normalize the image; the mask is returned as a raw integer array. -/
def transform (image_resize : Nat) (aug : Option DataAugmentation) (σ : Nat → ℚ)
    (image mask : Img) : Except String (QImg × Img) :=
  let image := resize_image image image_resize
  let mask := resize_mask mask image_resize
  match aug with
  | none => Except.ok (normalizeImg 0 1 (to_tensor image), mask)
  | some cfg =>
      match augment cfg σ image mask with
      | Except.error e => Except.error e
      | Except.ok (image, mask) => Except.ok (normalizeImg 0 1 (to_tensor image), mask)

/-- The subset tags accepted by `DeepFashion2Dataset.__init__`. -/
def valid_subsets : List String := ["train", "validation", "test"]

/-- One row of the data.json manifest. -/
structure ManifestRow where
  set : String
  image_path : String
  mask_path : String

/-- The state a constructed dataset holds: the filtered path pairs. -/
structure DatasetState where
  image_mask_pairs : List (String × String)

/-- `DeepFashion2Dataset.__init__` of src/data.py lines 47-77: the subset
tag is validated first; only then is the manifest opened (`none` models a
missing or unreadable data.json), rows of the requested subset selected,
and pairs kept only when both files exist (`fileOK`). -/
def datasetInit (path : String) (subset : String)
    (manifest : Option (List ManifestRow)) (fileOK : String → Bool) :
    Except String DatasetState :=
  if subset ∉ valid_subsets then
    Except.error ("Subset must be one of train, validation, test. Is " ++ subset)
  else
    match manifest with
    | none => Except.error "cannot open data.json"
    | some rows =>
        let chosen := rows.filter (fun r => r.set = subset)
        let images := chosen.map (fun r => path ++ "/" ++ r.image_path)
        let masks := chosen.map (fun r => path ++ "/" ++ r.mask_path)
        Except.ok ⟨(images.zip masks).filter (fun p => fileOK p.1 && fileOK p.2)⟩

/-- First index of the maximal element, accumulator form. -/
def argmaxAux : List ℚ → Nat → Nat → ℚ → Nat
  | [], _, best, _ => best
  | x :: xs, i, best, bv =>
      if bv < x then argmaxAux xs (i + 1) i x else argmaxAux xs (i + 1) best bv

/-- `torch.argmax` over a score list: index of the first maximal value. -/
def argmaxList : List ℚ → Nat
  | [] => 0
  | x :: xs => argmaxAux xs 1 0 x

/-- `torch.argmax(y_pred, dim=1)` for one sample of shape
channel × height × width: the per-pixel predicted class. -/
def argmaxImage (scores : List (List (List ℚ))) : List (List Nat) :=
  let h := (scores.headD []).length
  let w := ((scores.headD []).headD []).length
  (List.range h).map (fun i =>
    (List.range w).map (fun j =>
      argmaxList (scores.map (fun ch => (ch.getD i []).getD j 0))))

/-- Pixels where both the prediction and the truth equal class `c`
(the `intersection` mask's sum in src/metrics.py line 13). -/
def interCount (pred truth : List (List Nat)) (c : Nat) : Nat :=
  ((pred.zip truth).map (fun rr =>
    (rr.1.zip rr.2).countP (fun xy => xy.1 == c && xy.2 == c))).sum

/-- Pixels where the prediction or the truth equals class `c`
(the `union` mask's sum in src/metrics.py line 14). -/
def unionCount (pred truth : List (List Nat)) (c : Nat) : Nat :=
  ((pred.zip truth).map (fun rr =>
    (rr.1.zip rr.2).countP (fun xy => xy.1 == c || xy.2 == c))).sum

/-- `_class_iou` of src/metrics.py lines 10-15. -/
def class_iou (pred truth : List (List Nat)) (c : Nat) : ℚ :=
  (interCount pred truth c : ℚ) / (unionCount pred truth c : ℚ)

/-- `iou` of src/metrics.py lines 5-18: the classes scored are the distinct
values of `y_true` minus background 0; `none` embeds the not-a-number that
`np.mean` of an empty list returns. -/
def iou (y_true : List (List Nat)) (y_pred : List (List (List ℚ))) : Option ℚ :=
  let predicted_image := argmaxImage y_pred
  let true_classes := y_true.flatten.dedup
  let scored := true_classes.filter (fun c => decide (c ≠ 0))
  if scored.isEmpty then none
  else some ((scored.map (fun c => class_iou predicted_image y_true c)).sum
             / (scored.length : ℚ))

/-- Equality of spatial shape between two 2-D arrays. -/
def sameShape (a b : List (List Nat)) : Prop := a.map List.length = b.map List.length

/-! Theorems. -/

/-- Every nearest-neighbor source index is in range on a nonempty axis. -/
lemma nnIndex_lt (inSize outSize i : Nat) (h : 0 < inSize) :
    nnIndex inSize outSize i < inSize := by
  have := Nat.min_le_left (inSize - 1) ((2 * i + 1) * inSize / (2 * outSize))
  unfold nnIndex
  omega

/-- Claim C1: for every rectangular nonempty label map and every target
size, each value of the nearest-neighbor, no-anti-aliasing resize
`resize_mask` occurs in the input label map: the resize fabricates no
label absent from the input alphabet, so the set of distinct output
values is a subset of the set of distinct input values. -/
theorem resize_mask_label_subset (mask : Img) (s : Nat)
    (hh : 0 < mask.length)
    (hw : ∀ row ∈ mask, row.length = (mask.headD []).length)
    (hw0 : 0 < (mask.headD []).length) :
    ∀ v ∈ (resize_mask mask s).flatten, v ∈ mask.flatten := by
  intro v hv
  rw [List.mem_flatten] at hv
  obtain ⟨row, hrow, hvrow⟩ := hv
  simp only [resize_mask, List.mem_map, List.mem_range] at hrow
  obtain ⟨i, _, rfl⟩ := hrow
  simp only [List.mem_map, List.mem_range] at hvrow
  obtain ⟨j, _, rfl⟩ := hvrow
  have hrlt : nnIndex mask.length s i < mask.length := nnIndex_lt _ _ _ hh
  have hrowmem : mask[nnIndex mask.length s i] ∈ mask := List.getElem_mem hrlt
  have hclt : nnIndex (mask.headD []).length s j <
      mask[nnIndex mask.length s i].length := by
    rw [hw _ hrowmem]
    exact nnIndex_lt _ _ _ hw0
  rw [List.getD_eq_getElem mask [] hrlt, List.getD_eq_getElem _ 0 hclt]
  exact List.mem_flatten.mpr ⟨_, hrowmem, List.getElem_mem hclt⟩

/-- Witness for C1: the value 2, which occurs in the 3 × 3 resize of the
label map `[[1,2],[3,4]]`, occurs in the input label map. -/
theorem resize_mask_label_subset_witness :
    (2 : Nat) ∈ ([[1, 2], [3, 4]] : Img).flatten :=
  resize_mask_label_subset [[1, 2], [3, 4]] 3 (by decide) (by decide) (by decide)
    2 (by decide)

/-- Claim C2: `augment` factors through the jitter-and-crop stage followed
by `flipStep` applied to the single draw at stream position 6 — exactly
one random value governs the flip — and `flipStep` flips the image and
the mask under the same decision `h_flipping_chance < r`: both are
flipped when the draw exceeds the threshold (effective probability
`1 - threshold`) and neither otherwise, never independently. -/
theorem augment_flip_synchronized (cfg : DataAugmentation) (σ : Nat → ℚ)
    (image mask : Img) :
    augment cfg σ image mask =
      Except.map (flipStep cfg.h_flipping_chance (σ 6)) (preFlip cfg σ image mask) ∧
    ∀ p : Img × Img, flipStep cfg.h_flipping_chance (σ 6) p =
      (if cfg.h_flipping_chance < σ 6 then hflip p.1 else p.1,
       if cfg.h_flipping_chance < σ 6 then hflip p.2 else p.2) := by
  constructor
  · simp only [augment, preFlip]
    cases hp : pairRandomCrop cfg.central_crop_size (σ 4) (σ 5)
        (colorJitter cfg σ image) mask with
    | error e => simp [Except.map]
    | ok p =>
        obtain ⟨a, b⟩ := p
        by_cases hc : cfg.h_flipping_chance < σ 6 <;>
          simp [Except.map, flipStep, hc]
  · intro p
    unfold flipStep
    by_cases hc : cfg.h_flipping_chance < σ 6 <;> simp [hc]

/-- Reading a pixel of a cropped image is reading the source pixel shifted
by the crop offset: cropping alters no value. -/
lemma crop_getD (img : Img) (ty tx nh nw i j : Nat) (hi : i < nh) (hj : j < nw) :
    ((crop img ty tx nh nw).getD i []).getD j 0 =
      (img.getD (ty + i) []).getD (tx + j) 0 := by
  unfold crop
  have h1 : i < ((List.range nh).map (fun i =>
      (List.range nw).map (fun j => (img.getD (ty + i) []).getD (tx + j) 0))).length := by
    simpa using hi
  rw [List.getD_eq_getElem _ _ h1]
  simp only [List.getElem_map, List.getElem_range]
  have h2 : j < ((List.range nw).map
      (fun j => (img.getD (ty + i) []).getD (tx + j) 0)).length := by
    simpa using hj
  rw [List.getD_eq_getElem _ _ h2]
  simp only [List.getElem_map, List.getElem_range]

/-- Claim C3: a successful `pairRandomCrop` produces its two outputs from
one single parameter tuple `(ty, tx, nh, nw)`, applied identically to the
image and to the mask, and the crop is a pure spatial subset: every pixel
of a cropped array equals the source pixel at the offset position, with
no value altered. -/
theorem pairRandomCrop_synchronized (s : Nat) (qi qj : ℚ) (image mask : Img)
    (out : Img × Img) (h : pairRandomCrop s qi qj image mask = Except.ok out) :
    ∃ ty tx nh nw,
      out = (crop image ty tx nh nw, crop mask ty tx nh nw) ∧
      ∀ (img : Img) (i j : Nat), i < nh → j < nw →
        ((crop img ty tx nh nw).getD i []).getD j 0 =
          (img.getD (ty + i) []).getD (tx + j) 0 := by
  unfold pairRandomCrop at h
  cases hp : get_params image s s qi qj with
  | error e => rw [hp] at h; exact absurd h (by simp)
  | ok q =>
      obtain ⟨ty, tx, nh, nw⟩ := q
      rw [hp] at h
      injection h with h
      exact ⟨ty, tx, nh, nw, h.symm, fun img i j hi hj => crop_getD img ty tx nh nw i j hi hj⟩

/-- Witness for C3 on a concrete 3 × 3 image/mask pair with crop size 2. -/
theorem pairRandomCrop_synchronized_witness :
    ∃ ty tx nh nw,
      (([[1, 2], [4, 5]], [[1, 1], [2, 2]]) : Img × Img) =
        (crop [[1, 2, 3], [4, 5, 6], [7, 8, 9]] ty tx nh nw,
         crop [[1, 1, 1], [2, 2, 2], [3, 3, 3]] ty tx nh nw) ∧
      ∀ (img : Img) (i j : Nat), i < nh → j < nw →
        ((crop img ty tx nh nw).getD i []).getD j 0 =
          (img.getD (ty + i) []).getD (tx + j) 0 :=
  pairRandomCrop_synchronized 2 0 0 [[1, 2, 3], [4, 5, 6], [7, 8, 9]]
    [[1, 1, 1], [2, 2, 2], [3, 3, 3]] ([[1, 2], [4, 5]], [[1, 1], [2, 2]])
    (by norm_num [pairRandomCrop, get_params, toIdx, crop, List.range_succ])

/-- Claim C4: when the ground truth contains only the background value 0,
the scored class set is empty and `iou` returns the embedded not-a-number
(`none`); being a total function of its arguments, it raises nothing. -/
theorem iou_background_only_nan (y_true : List (List Nat))
    (y_pred : List (List (List ℚ))) (h : ∀ v ∈ y_true.flatten, v = 0) :
    iou y_true y_pred = none := by
  have hs : y_true.flatten.dedup.filter (fun c => decide (c ≠ 0)) = [] := by
    rw [List.filter_eq_nil_iff]
    intro c hc
    have := h c (List.mem_dedup.mp hc)
    simp [this]
  simp only [iou]
  rw [hs]
  rfl

/-- Witness for C4 on an all-background ground truth. -/
theorem iou_background_only_nan_witness :
    iou [[0, 0], [0, 0]] [[[1, 1], [1, 1]]] = none :=
  iou_background_only_nan [[0, 0], [0, 0]] [[[1, 1], [1, 1]]] (by decide)

/-- Both components of an element of a list zipped with itself agree. -/
lemma zip_self_eq {α : Type} (l : List α) : ∀ p ∈ l.zip l, p.1 = p.2 := by
  intro p hp
  obtain ⟨i, hi, hpe⟩ := List.mem_iff_getElem.mp hp
  simp only [List.getElem_zip] at hpe
  rw [← hpe]

/-- A class occurring in the ground truth makes the union mask nonempty. -/
lemma unionCount_pos (pred truth : List (List Nat)) (h : sameShape pred truth)
    (c : Nat) (hc : c ∈ truth.flatten) : 0 < unionCount pred truth c := by
  obtain ⟨row, hrowmem, hcrow⟩ := List.mem_flatten.mp hc
  obtain ⟨i, hi, rfl⟩ := List.mem_iff_getElem.mp hrowmem
  have hlen : pred.length = truth.length := by
    have := congrArg List.length h
    simpa using this
  have hi' : i < pred.length := by omega
  have hm : i < (pred.map List.length).length := by simpa using hi'
  have hm2 : i < (truth.map List.length).length := by simpa using hi
  have hrowlen : pred[i].length = truth[i].length := by
    have hgd := congrArg (fun l : List Nat => l.getD i 0) h
    simp only at hgd
    rw [List.getD_eq_getElem _ _ hm, List.getD_eq_getElem _ _ hm2] at hgd
    simpa using hgd
  obtain ⟨j, hj, hcj⟩ := List.mem_iff_getElem.mp hcrow
  have hj' : j < pred[i].length := by omega
  have hz : i < (pred.zip truth).length := by
    rw [List.length_zip]
    omega
  have hmem : (pred[i], truth[i]) ∈ pred.zip truth := by
    have := List.getElem_mem hz
    simpa [List.getElem_zip] using this
  have hjz : j < (pred[i].zip truth[i]).length := by
    rw [List.length_zip]
    omega
  have hinner : (pred[i][j], truth[i][j]) ∈ pred[i].zip truth[i] := by
    have := List.getElem_mem hjz
    simpa [List.getElem_zip] using this
  have hcount : 0 < (pred[i].zip truth[i]).countP
      (fun xy => xy.1 == c || xy.2 == c) := by
    rw [List.countP_pos_iff]
    exact ⟨_, hinner, by simp [hcj]⟩
  have hmm : (pred[i].zip truth[i]).countP (fun xy => xy.1 == c || xy.2 == c) ∈
      ((pred.zip truth).map (fun rr =>
        (rr.1.zip rr.2).countP (fun xy => xy.1 == c || xy.2 == c))) :=
    List.mem_map_of_mem _ hmem
  have := List.single_le_sum (l := (pred.zip truth).map (fun rr =>
      (rr.1.zip rr.2).countP (fun xy => xy.1 == c || xy.2 == c)))
    (fun x _ => Nat.zero_le x) _ hmm
  unfold unionCount
  omega

/-- Claim C5: the classes scored by `iou` are the distinct values of the
ground truth (not of the predictions), and for every such class the union
mask of src/metrics.py line 14 is nonempty, so the per-class division
never divides by zero (when prediction and truth share their shape, as
tensors of one sample do). -/
theorem iou_scored_union_pos (y_true : List (List Nat))
    (y_pred : List (List (List ℚ)))
    (hs : sameShape (argmaxImage y_pred) y_true) (c : Nat)
    (hc : c ∈ y_true.flatten.dedup.filter (fun c => decide (c ≠ 0))) :
    0 < unionCount (argmaxImage y_pred) y_true c := by
  obtain ⟨hcd, _⟩ := List.mem_filter.mp hc
  exact unionCount_pos _ _ hs c (List.mem_dedup.mp hcd)

/-- Witness for C5: class 2 on a concrete ground truth and score map. -/
theorem iou_scored_union_pos_witness :
    0 < unionCount (argmaxImage [[[1, 0, 0]], [[0, 1, 0]], [[0, 0, 1]]])
      [[0, 1, 2]] 2 :=
  iou_scored_union_pos [[0, 1, 2]] [[[1, 0, 0]], [[0, 1, 0]], [[0, 0, 1]]]
    (by unfold sameShape; decide) 2 (by decide)

/-- On a self-zipped image the intersection and union masks coincide. -/
lemma interCount_self (l : List (List Nat)) (c : Nat) :
    interCount l l c = unionCount l l c := by
  unfold interCount unionCount
  congr 1
  apply List.map_congr_left
  intro p hp
  have h1 := zip_self_eq l p hp
  apply List.countP_congr
  intro xy hxy
  rw [h1] at hxy
  have h2 := zip_self_eq p.2 xy hxy
  rw [← h2]
  cases hb : xy.1 == c <;> simp [hb]

/-- Sum of a map whose values are all 1, as a rational. -/
lemma sum_map_all_one {α : Type} (l : List α) (f : α → ℚ)
    (h : ∀ x ∈ l, f x = 1) : (l.map f).sum = (l.length : ℚ) := by
  induction l with
  | nil => simp
  | cons x xs ih =>
      have hx := h x (by simp)
      have hxs : ∀ y ∈ xs, f y = 1 := fun y hy => h y (by simp [hy])
      simp [hx, ih hxs]
      ring

/-- Claim C6: when the distinct ground-truth values are exactly {0, 1, 2}
and the arg-max of the predicted scores equals the ground truth pixel for
pixel, `iou` returns exactly 1. -/
theorem iou_perfect_prediction (y_true : List (List Nat))
    (y_pred : List (List (List ℚ)))
    (hvals : (∀ v ∈ y_true.flatten, v ∈ [0, 1, 2]) ∧
      ∀ v ∈ [(0 : Nat), 1, 2], v ∈ y_true.flatten)
    (hpred : argmaxImage y_pred = y_true) :
    iou y_true y_pred = some 1 := by
  have h1 : (1 : Nat) ∈ y_true.flatten.dedup.filter (fun c => decide (c ≠ 0)) :=
    List.mem_filter.mpr ⟨List.mem_dedup.mpr (hvals.2 1 (by decide)), by decide⟩
  have hne : y_true.flatten.dedup.filter (fun c => decide (c ≠ 0)) ≠ [] :=
    List.ne_nil_of_mem h1
  have hie : (y_true.flatten.dedup.filter (fun c => decide (c ≠ 0))).isEmpty = false := by
    simpa using hne
  have hone : ∀ cl ∈ y_true.flatten.dedup.filter (fun c => decide (c ≠ 0)),
      class_iou y_true y_true cl = 1 := by
    intro cl hcs
    obtain ⟨hcd, _⟩ := List.mem_filter.mp hcs
    have hcf : cl ∈ y_true.flatten := List.mem_dedup.mp hcd
    have hpos : 0 < unionCount y_true y_true cl :=
      unionCount_pos y_true y_true rfl cl hcf
    unfold class_iou
    rw [interCount_self]
    have : ((unionCount y_true y_true cl : Nat) : ℚ) ≠ 0 := by
      exact_mod_cast Nat.pos_iff_ne_zero.mp hpos
    field_simp
  have hlenpos : 0 < (y_true.flatten.dedup.filter (fun c => decide (c ≠ 0))).length :=
    List.length_pos.mpr hne
  have hlen : ((y_true.flatten.dedup.filter (fun c => decide (c ≠ 0))).length : ℚ) ≠ 0 := by
    exact_mod_cast Nat.pos_iff_ne_zero.mp hlenpos
  simp only [iou]
  rw [hpred, hie]
  rw [if_neg (by simp)]
  rw [sum_map_all_one _ _ hone, div_self hlen]

/-- Witness for C6 on the one-row ground truth `[[0,1,2]]` with a score
map whose arg-max reproduces it. -/
theorem iou_perfect_prediction_witness :
    iou [[0, 1, 2]] [[[1, 0, 0]], [[0, 1, 0]], [[0, 0, 1]]] = some 1 :=
  iou_perfect_prediction [[0, 1, 2]] [[[1, 0, 0]], [[0, 1, 0]], [[0, 0, 1]]]
    (by decide) (by decide)

/-- Claim C7: with no augmentation configuration the sample transform is a
pass-through around resizing: the returned mask is exactly the resized
input mask, never cropped, flipped, or perturbed. -/
theorem transform_no_augmentation_mask (image_resize : Nat) (σ : Nat → ℚ)
    (image mask : Img) :
    ∃ img, transform image_resize none σ image mask =
      Except.ok (img, resize_mask mask image_resize) :=
  ⟨_, rfl⟩

/-- Claim C8: `augment` is deterministic in the externally supplied random
source and holds no state across calls: it is a pure function of the
configuration, the stream, and the two inputs, and it reads only stream
positions 0-6, so any two sources agreeing on those draws produce
identical outputs. -/
theorem augment_deterministic (cfg : DataAugmentation) (σ1 σ2 : Nat → ℚ)
    (image mask : Img) (h : ∀ k < 7, σ1 k = σ2 k) :
    augment cfg σ1 image mask = augment cfg σ2 image mask := by
  have e0 := h 0 (by norm_num)
  have e1 := h 1 (by norm_num)
  have e4 := h 4 (by norm_num)
  have e5 := h 5 (by norm_num)
  have e6 := h 6 (by norm_num)
  simp only [augment, colorJitter, e0, e1, e4, e5, e6]

/-- Witness for C8: two streams that differ only beyond position 6. -/
theorem augment_deterministic_witness :
    augment { central_crop_size := 2 } (fun _ => 0) [[1, 2], [3, 4]] [[5, 6], [7, 8]] =
      augment { central_crop_size := 2 } (fun k => if k < 7 then 0 else (1 : ℚ))
        [[1, 2], [3, 4]] [[5, 6], [7, 8]] :=
  augment_deterministic { central_crop_size := 2 } _ _ _ _ (fun k hk => by simp [hk])

/-- Claim C9: an unknown subset tag makes the dataset constructor fail
with the configuration error, for every manifest state — in particular
when data.json is absent (`none`), showing the failure occurs before any
data file is opened or read. -/
theorem datasetInit_invalid_subset (path subset : String)
    (h : subset ∉ valid_subsets)
    (manifest : Option (List ManifestRow)) (fileOK : String → Bool) :
    datasetInit path subset manifest fileOK =
      Except.error ("Subset must be one of train, validation, test. Is " ++ subset) := by
  simp only [datasetInit]
  rw [if_pos h]

/-- Witness for C9: the unknown tag "testing" with no readable manifest. -/
theorem datasetInit_invalid_subset_witness :
    datasetInit "data" "testing" none (fun _ => true) =
      Except.error ("Subset must be one of train, validation, test. Is " ++ "testing") :=
  datasetInit_invalid_subset "data" "testing" (by decide) none (fun _ => true)

/-- A crop has exactly the requested number of rows and columns. -/
lemma crop_shape (img : Img) (ty tx nh nw : Nat) :
    (crop img ty tx nh nw).length = nh ∧
      ∀ r ∈ crop img ty tx nh nw, r.length = nw := by
  constructor
  · simp [crop]
  · intro r hr
    simp only [crop, List.mem_map, List.mem_range] at hr
    obtain ⟨i, _, rfl⟩ := hr
    simp

/-- Flipping a crop preserves its shape. -/
lemma hflip_crop_shape (img : Img) (ty tx nh nw : Nat) :
    (hflip (crop img ty tx nh nw)).length = nh ∧
      ∀ r ∈ hflip (crop img ty tx nh nw), r.length = nw := by
  constructor
  · simp [hflip, crop]
  · intro r hr
    simp only [hflip, List.mem_map] at hr
    obtain ⟨r0, hr0, rfl⟩ := hr
    rw [List.length_reverse]
    exact (crop_shape img ty tx nh nw).2 r0 hr0

/-- Color jitter preserves the number of rows. -/
lemma colorJitter_length (cfg : DataAugmentation) (σ : Nat → ℚ) (img : Img) :
    (colorJitter cfg σ img).length = img.length := by
  simp [colorJitter, adjust_contrast, adjust_brightness]

/-- Color jitter preserves the width of the first row. -/
lemma colorJitter_head_length (cfg : DataAugmentation) (σ : Nat → ℚ) (img : Img) :
    ((colorJitter cfg σ img).headD []).length = (img.headD []).length := by
  cases img with
  | nil => rfl
  | cons r t =>
      simp only [colorJitter, adjust_contrast, adjust_brightness, List.map_cons,
        List.headD_cons, List.length_map]

/-- When the requested square crop fits, the parameter sampler succeeds
and asks for exactly an `s × s` region. -/
lemma get_params_ok (image : Img) (s : Nat) (qi qj : ℚ)
    (hh : s ≤ image.length) (hw : s ≤ (image.headD []).length) :
    ∃ ty tx, get_params image s s qi qj = Except.ok (ty, tx, s, s) := by
  simp only [get_params]
  rw [if_pos ⟨hh, hw⟩]
  by_cases he : image.length = s ∧ (image.headD []).length = s
  · rw [if_pos he, he.1, he.2]
    exact ⟨0, 0, rfl⟩
  · rw [if_neg he]
    exact ⟨_, _, rfl⟩

/-- Claim C10: when both the image and the mask are at least as large as
the configured crop edge in both spatial dimensions, `augment` succeeds
and both outputs are exactly `central_crop_size × central_crop_size`, so
the two outputs have identical spatial dimensions. -/
theorem augment_output_size (cfg : DataAugmentation) (σ : Nat → ℚ)
    (image mask : Img)
    (h1 : cfg.central_crop_size ≤ image.length)
    (h2 : cfg.central_crop_size ≤ (image.headD []).length)
    (h3 : cfg.central_crop_size ≤ mask.length)
    (h4 : cfg.central_crop_size ≤ (mask.headD []).length) :
    ∃ out : Img × Img, augment cfg σ image mask = Except.ok out ∧
      out.1.length = cfg.central_crop_size ∧
      (∀ r ∈ out.1, r.length = cfg.central_crop_size) ∧
      out.2.length = cfg.central_crop_size ∧
      (∀ r ∈ out.2, r.length = cfg.central_crop_size) := by
  have hj1 : cfg.central_crop_size ≤ (colorJitter cfg σ image).length := by
    rw [colorJitter_length]
    exact h1
  have hj2 : cfg.central_crop_size ≤ ((colorJitter cfg σ image).headD []).length := by
    rw [colorJitter_head_length]
    exact h2
  obtain ⟨ty, tx, hp⟩ :=
    get_params_ok (colorJitter cfg σ image) cfg.central_crop_size (σ 4) (σ 5) hj1 hj2
  have hcrop : pairRandomCrop cfg.central_crop_size (σ 4) (σ 5)
      (colorJitter cfg σ image) mask =
      Except.ok (crop (colorJitter cfg σ image) ty tx cfg.central_crop_size cfg.central_crop_size,
                 crop mask ty tx cfg.central_crop_size cfg.central_crop_size) := by
    unfold pairRandomCrop
    rw [hp]
  have haug : augment cfg σ image mask =
      if cfg.h_flipping_chance < σ 6 then
        Except.ok
          (hflip (crop (colorJitter cfg σ image) ty tx cfg.central_crop_size cfg.central_crop_size),
           hflip (crop mask ty tx cfg.central_crop_size cfg.central_crop_size))
      else
        Except.ok
          (crop (colorJitter cfg σ image) ty tx cfg.central_crop_size cfg.central_crop_size,
           crop mask ty tx cfg.central_crop_size cfg.central_crop_size) := by
    simp only [augment]
    rw [hcrop]
  by_cases hc : cfg.h_flipping_chance < σ 6
  · rw [if_pos hc] at haug
    exact ⟨_, haug, (hflip_crop_shape _ ty tx _ _).1, (hflip_crop_shape _ ty tx _ _).2,
      (hflip_crop_shape _ ty tx _ _).1, (hflip_crop_shape _ ty tx _ _).2⟩
  · rw [if_neg hc] at haug
    exact ⟨_, haug, (crop_shape _ ty tx _ _).1, (crop_shape _ ty tx _ _).2,
      (crop_shape _ ty tx _ _).1, (crop_shape _ ty tx _ _).2⟩

/-- Witness for C10 on a 3 × 3 pair with crop size 2. -/
theorem augment_output_size_witness :
    ∃ out : Img × Img,
      augment { central_crop_size := 2 } (fun _ => 0)
        [[1, 2, 3], [4, 5, 6], [7, 8, 9]] [[1, 1, 1], [2, 2, 2], [3, 3, 3]] =
        Except.ok out ∧
      out.1.length = 2 ∧ (∀ r ∈ out.1, r.length = 2) ∧
      out.2.length = 2 ∧ (∀ r ∈ out.2, r.length = 2) :=
  augment_output_size { central_crop_size := 2 } (fun _ => 0)
    [[1, 2, 3], [4, 5, 6], [7, 8, 9]] [[1, 1, 1], [2, 2, 2], [3, 3, 3]]
    (by decide) (by decide) (by decide) (by decide)

end PUSeg
